import Mathlib

/-!
Shallow embedding of `src/main.cpp` (move-semantics demo).

The C++ program manipulates raw heap buffers (`new char[n]`, `delete[]`,
`memcpy`), so the embedding carries an explicit heap: an association list
from (abstract) pointers to allocated blocks.  A byte of a block is
`Option Char`; `none` models an indeterminate (uninitialized) byte, as
produced by `new char[n]` without value-initialization, while
`new char[n]()` produces zero bytes.  Operations that can touch memory
wrongly (double free, out-of-bounds or null read/write) return `Option`,
with `none` marking the memory error.
-/

namespace MoveSem

/-- An allocated heap block: its list of bytes.  `none` is an
indeterminate (uninitialized) byte. -/
abbrev Block := List (Option Char)

/-- Look up the block stored under pointer `p` in an association list. -/
def lookupB : List (Nat × Block) → Nat → Option Block
  | [], _ => none
  | (k, b) :: rest, p => if k = p then some b else lookupB rest p

/-- Replace the block stored under pointer `p` (first occurrence). -/
def storeB : List (Nat × Block) → Nat → Block → List (Nat × Block)
  | [], _, _ => []
  | (k, b) :: rest, p, nb => if k = p then (k, nb) :: rest else (k, b) :: storeB rest p nb

/-- Remove the block stored under pointer `p` (first occurrence). -/
def removeB : List (Nat × Block) → Nat → List (Nat × Block)
  | [], _ => []
  | (k, b) :: rest, p => if k = p then rest else (k, b) :: removeB rest p

/-- The heap: allocated blocks plus a fresh-pointer counter. -/
structure Heap where
  blocks : List (Nat × Block)
  next : Nat
  deriving DecidableEq, Repr

/-- The empty heap. -/
def Heap.empty : Heap := ⟨[], 0⟩

/-- Look up the block at pointer `p`. -/
def Heap.lookup (h : Heap) (p : Nat) : Option Block := lookupB h.blocks p

/-- Allocate a fresh block with the given bytes; returns its pointer. -/
def Heap.allocWith (h : Heap) (b : Block) : Nat × Heap :=
  (h.next, ⟨(h.next, b) :: h.blocks, h.next + 1⟩)

/-- Model of `new char[n]`: `n` indeterminate bytes. -/
def Heap.allocRaw (h : Heap) (n : Nat) : Nat × Heap :=
  h.allocWith (List.replicate n none)

/-- Model of `new char[n]()`: `n` zeroed bytes. -/
def Heap.allocZero (h : Heap) (n : Nat) : Nat × Heap :=
  h.allocWith (List.replicate n (some (Char.ofNat 0)))

/-- Model of `delete[] p` on a non-null pointer: fails (double free / invalid
free) when `p` is not allocated. -/
def Heap.free (h : Heap) (p : Nat) : Option Heap :=
  match h.lookup p with
  | none => none
  | some _ => some ⟨removeB h.blocks p, h.next⟩

/-- Model of `delete[]` on a possibly-null pointer: `delete[] nullptr` is a no-op. -/
def Heap.deleteArr (h : Heap) (p : Option Nat) : Option Heap :=
  match p with
  | none => some h
  | some q => h.free q

/-- Overwrite `bytes.length` bytes of a block starting at `off`;
fails when the write would leave the allocation. -/
def writeBytes (b : Block) (off : Nat) (bytes : List (Option Char)) : Option Block :=
  if off + bytes.length ≤ b.length then
    some (b.take off ++ bytes ++ b.drop (off + bytes.length))
  else none

/-- Read `len` bytes of a block starting at `off`; fails when the read
would leave the allocation. -/
def readBytes (b : Block) (off len : Nat) : Option (List (Option Char)) :=
  if off + len ≤ b.length then some ((b.drop off).take len) else none

/-- Write `bytes` into the block at pointer `p`, at offset `off`. -/
def Heap.store (h : Heap) (p off : Nat) (bytes : List (Option Char)) : Option Heap :=
  match h.lookup p with
  | none => none
  | some b =>
    match writeBytes b off bytes with
    | none => none
    | some b' => some ⟨storeB h.blocks p b', h.next⟩

/-- Read `len` bytes from the block at pointer `p`, at offset `off`. -/
def Heap.load (h : Heap) (p off len : Nat) : Option (List (Option Char)) :=
  match h.lookup p with
  | none => none
  | some b => readBytes b off len

/-- Model of `memcpy(dst + dstOff, src + srcOff, len)` where `src` may be null.
A zero-byte copy touches no memory (matches the program's
`memcpy(_init, rhs._init, 0)` calls on a null source). -/
def Heap.memcpy (h : Heap) (dst dstOff : Nat) (src : Option Nat) (srcOff len : Nat) :
    Option Heap :=
  if len = 0 then some h
  else
    match src with
    | none => none
    | some s =>
      match h.load s srcOff len with
      | none => none
      | some bytes => h.store dst dstOff bytes

/-- The state of a `My_string` object: `_init` is the owned buffer
pointer (or `none` for `nullptr`), `_length` the logical content size,
`_size` the recorded capacity. -/
structure MyString where
  _init : Option Nat
  _length : Nat
  _size : Nat
  deriving DecidableEq, Repr

/-- Model of `My_string()`: the default constructor. -/
def mkEmpty : MyString := ⟨none, 0, 0⟩

/-- Model of `My_string(const char* rhs)`: `_size = _length = strlen(rhs)`,
`_init = new char[_length]()`, `memcpy(_init, rhs, _length)`.
The argument is the pointee's character sequence up to (excluding) the
terminator, so `strlen` is its length. -/
def fromBytes (h : Heap) (s : List Char) : Option (MyString × Heap) :=
  let n := s.length
  let (p, h1) := h.allocZero n
  match h1.store p 0 (s.map some) with
  | none => none
  | some h2 => some (⟨some p, n, n⟩, h2)

/-- Content of a buffer object: its first `_length` bytes.  A
zero-length object has empty content even with a null pointer. -/
def contentOf (h : Heap) (s : MyString) : Option (List (Option Char)) :=
  if s._length = 0 then some []
  else
    match s._init with
    | none => none
    | some p => h.load p 0 s._length

/-- Model of `My_string(const My_string& rhs)` (copy constructor):
`_init = new char[rhs._length]` (uninitialized), then
`memcpy(_init, rhs._init, rhs._length)`; fields `_length`/`_size` are
copied from `rhs`. -/
def copyCtor (h : Heap) (rhs : MyString) : Option (MyString × Heap) :=
  let (p, h1) := h.allocRaw rhs._length
  match h1.memcpy p 0 rhs._init 0 rhs._length with
  | none => none
  | some h2 => some (⟨some p, rhs._length, rhs._size⟩, h2)

/-- Model of `My_string(My_string&& rsh)` (move constructor): adopts the source's
pointer and fields, then nulls the source's pointer and zeroes its
fields.  Returns (target, source-after).  No heap interaction. -/
def moveCtor (rhs : MyString) : MyString × MyString :=
  (⟨rhs._init, rhs._length, rhs._size⟩, ⟨none, 0, 0⟩)

/-- Model of `operator=(const My_string& rhs)` (copy assignment), for the case
where `rhs` is a distinct object from `*this` (= `lhs`):
`if (_init != nullptr) delete[] _init; _init = new char[rhs._length];
memcpy(_init, rhs._init, rhs._length); _size = rhs._size;
_length = rhs._length`. -/
def copyAssign (h : Heap) (lhs rhs : MyString) : Option (MyString × Heap) :=
  match h.deleteArr lhs._init with
  | none => none
  | some h1 =>
    let (p, h2) := h1.allocRaw rhs._length
    match h2.memcpy p 0 rhs._init 0 rhs._length with
    | none => none
    | some h3 => some (⟨some p, rhs._length, rhs._size⟩, h3)

/-- Model of `operator=(const My_string& rhs)` replayed with `rhs` aliasing
`*this` (`x = x`): the operator has no self-assignment guard.  Step 1
frees the old buffer; step 2 reassigns `_init` to a fresh uninitialized
allocation of `rhs._length` (= the object's own `_length`, a field the
free did not touch); step 3's `memcpy(_init, rhs._init, rhs._length)`
then reads `rhs._init` through the alias, i.e. the *new* pointer, so it
copies the fresh allocation onto itself (the old content is gone);
step 4 reassigns `_size`/`_length` to their own values. -/
def copyAssignSelf (h : Heap) (x : MyString) : Option (MyString × Heap) :=
  match h.deleteArr x._init with
  | none => none
  | some h1 =>
    let (p, h2) := h1.allocRaw x._length
    match h2.memcpy p 0 (some p) 0 x._length with
    | none => none
    | some h3 => some (⟨some p, x._length, x._size⟩, h3)

/-- Model of `operator=(My_string&& rhs)` (move assignment), for the case where
`rhs` is a distinct object (`this != &rhs` holds): `delete[] _init`
(a no-op on null), adopt `rhs`'s pointer and fields, null/zero `rhs`.
Returns (target, source-after, heap). -/
def moveAssign (h : Heap) (lhs rhs : MyString) : Option (MyString × MyString × Heap) :=
  match h.deleteArr lhs._init with
  | none => none
  | some h1 => some (⟨rhs._init, rhs._length, rhs._size⟩, (⟨none, 0, 0⟩ : MyString), h1)

/-- Model of `operator=(My_string&& rhs)` with `rhs` aliasing `*this`
(`x = std::move(x)`): the `this != &rhs` guard makes the whole body a
no-op; the object and the heap are untouched. -/
def moveAssignSelf (h : Heap) (x : MyString) : MyString × Heap :=
  (x, h)

/-- Model of `My_string::resize(size_t new_length)` (private helper of `+=`):
`aux = new char[_size + new_length]` (uninitialized),
`memcpy(aux, _init, _length)`, `_init = aux`, `delete[] old`.
Neither `_length` nor `_size` is updated. -/
def resize (h : Heap) (s : MyString) (newLength : Nat) : Option (MyString × Heap) :=
  let (aux, h1) := h.allocRaw (s._size + newLength)
  match h1.memcpy aux 0 s._init 0 s._length with
  | none => none
  | some h2 =>
    match h2.deleteArr s._init with
    | none => none
    | some h3 => some (⟨some aux, s._length, s._size⟩, h3)

/-- Model of `operator+=(const My_string& rhs)`:
`if (_size <= rhs._length) resize(rhs._length);
memcpy(&_init[_length], rhs._init, rhs._length)`.  The final `memcpy`
writes at offset `_length` of the (possibly reallocated) buffer; for a
null `_init` a zero-byte copy touches no memory. -/
def appendOp (h : Heap) (lhs rhs : MyString) : Option (MyString × Heap) :=
  match (if lhs._size ≤ rhs._length then resize h lhs rhs._length else some (lhs, h)) with
  | none => none
  | some (l1, h1) =>
    match l1._init with
    | none => if rhs._length = 0 then some (l1, h1) else none
    | some p =>
      match h1.memcpy p l1._length rhs._init 0 rhs._length with
      | none => none
      | some h2 => some (l1, h2)

/-- Scan of `strlen(_init)` restricted to the allocation: the position
of the first NUL byte of the block.  Returns `none` when the scan would
leave the allocation (no NUL byte in the block) or meets an
indeterminate byte — in either case the C++ `strlen` result, and hence
the rendered output, is undefined. -/
def strlenWithin : Block → Option Nat
  | [] => none
  | none :: _ => none
  | some c :: rest =>
    if c = Char.ofNat 0 then some 0 else (strlenWithin rest).map (fun n => n + 1)

/-- The observable outcome of `print_str`. -/
inductive Render where
  /-- Case `_init == nullptr`: prints "No data available". -/
  | noData : Render
  /-- Prints the first `strlen(_init)` characters of the buffer. -/
  | text : List Char → Render
  /-- Case where `strlen(_init)` reads out of bounds or indeterminate bytes:
  the printed output is undefined. -/
  | invalid : Render
  deriving DecidableEq, Repr

/-- Model of `My_string::print_str`: prints "No data available" for a null
`_init`, otherwise prints `strlen(_init)` characters of the buffer. -/
def print_str (h : Heap) (s : MyString) : Render :=
  match s._init with
  | none => Render.noData
  | some p =>
    match h.lookup p with
    | none => Render.invalid
    | some b =>
      match strlenWithin b with
      | none => Render.invalid
      | some n => Render.text ((b.take n).filterMap id)

/-!  Model of `Std_string` (wrapping `std::string`) and `My_custom`.
`std::string` is modelled by its character content; moving from a
`std::string` leaves the source in a valid but unspecified state,
modelled here as empty (nothing is claimed about the moved-from
string's content).  Console trace lines become events. -/

/-- One console trace line, by operation kind. -/
inductive TraceEv where
  | stdDefaultCtor : TraceEv
  | stdCopyAssign : TraceEv
  | stdMoveAssign : TraceEv
  | customDefaultCtor : TraceEv
  | customCopyCtor : TraceEv
  | customMoveCtor : TraceEv
  deriving DecidableEq, Repr

/-- Model of `Std_string`: wraps a `std::string` value. -/
structure StdString where
  _std_string : List Char
  deriving DecidableEq, Repr

/-- Model of `Std_string()`: sets the wrapped string to "default" and
logs. -/
def stdDefault : StdString × List TraceEv :=
  (⟨"default".toList⟩, [TraceEv.stdDefaultCtor])

/-- Model of `Std_string::operator=(const Std_string&)`: copies the wrapped
string and logs.  Returns (target-after, trace). -/
def stdCopyAssign (rhs : StdString) : StdString × List TraceEv :=
  (⟨rhs._std_string⟩, [TraceEv.stdCopyAssign])

/-- Model of `Std_string::operator=(Std_string&&)`: `_std_string =
std::move(rhs._std_string)` and logs.  Returns (target-after,
source-after, trace). -/
def stdMoveAssign (rhs : StdString) : StdString × StdString × List TraceEv :=
  (⟨rhs._std_string⟩, ⟨[]⟩, [TraceEv.stdMoveAssign])

/-- Model of `My_custom`: a value with one `Std_string` member `_str`. -/
structure MyCustom where
  _str : StdString
  deriving DecidableEq, Repr

/-- Model of `My_custom()`: `_str` is default-constructed (logging), then the
body logs. -/
def customDefault : MyCustom × List TraceEv :=
  let (s, t) := stdDefault
  (⟨s⟩, t ++ [TraceEv.customDefaultCtor])

/-- Model of `My_custom(const My_custom&)`: `_str(rhs._str)` uses `Std_string`'s
defaulted copy constructor (no log of its own), then the body logs
"move failed". -/
def customCopyCtor (rhs : MyCustom) : MyCustom × List TraceEv :=
  (⟨rhs._str⟩, [TraceEv.customCopyCtor])

/-- Model of `My_custom(My_custom&&)`: `_str` is first default-constructed (no
member-initializer, so `Std_string()` runs and logs), then the body
runs `_str = std::move(rhs._str)` (the member's move assignment, which
logs), then the body logs.  Returns (target, source-after, trace). -/
def customMoveCtor (rhs : MyCustom) : MyCustom × MyCustom × List TraceEv :=
  let (s0, t0) := stdDefault
  let (s1, rhsStr, t1) := stdMoveAssign rhs._str
  let _ := s0
  (⟨s1⟩, ⟨rhsStr⟩, t0 ++ t1 ++ [TraceEv.customMoveCtor])

/-- Model of the `custom_append` scenario: build `lhs` from
"first Element " and `rhs` from "second addition ", run `lhs += rhs`,
and return the resulting object and heap (the scenario then renders
`lhs` with `print_str`). -/
def custom_append : Option (MyString × Heap) :=
  match fromBytes Heap.empty ("first Element ".toList) with
  | none => none
  | some (lhs, h1) =>
    match fromBytes h1 ("second addition ".toList) with
    | none => none
    | some (rhs, h2) => appendOp h2 lhs rhs

/-! ### Association-list lemmas -/

theorem lookupB_storeB (l : List (Nat × Block)) (p : Nat) (nb : Block) (q : Nat) :
    lookupB (storeB l p nb) q =
      if q = p then (lookupB l p).map (fun _ => nb) else lookupB l q := by
  induction l with
  | nil => by_cases hqp : q = p <;> simp [storeB, lookupB, hqp]
  | cons kv rest ih =>
    obtain ⟨k, b⟩ := kv
    by_cases hkp : k = p
    · subst hkp
      by_cases hqk : q = k
      · subst hqk
        simp [storeB, lookupB]
      · simp [storeB, lookupB, hqk, Ne.symm hqk]
    · by_cases hkq : k = q
      · subst hkq
        simp [storeB, lookupB, hkp, fun hh : k = p => hkp hh, Ne.symm hkp]
      · simp [storeB, lookupB, hkp, hkq, ih]

theorem lookupB_removeB_ne (l : List (Nat × Block)) (p q : Nat) (hq : q ≠ p) :
    lookupB (removeB l p) q = lookupB l q := by
  induction l with
  | nil => simp [removeB]
  | cons kv rest ih =>
    obtain ⟨k, b⟩ := kv
    by_cases hkp : k = p
    · subst hkp
      simp [removeB, lookupB, Ne.symm hq]
    · by_cases hkq : k = q
      · subst hkq
        simp [removeB, lookupB, hkp]
      · simp [removeB, lookupB, hkp, hkq, ih]

theorem lookupB_removeB_isSome (l : List (Nat × Block)) (p q : Nat)
    (hs : (lookupB (removeB l p) q).isSome = true) : (lookupB l q).isSome = true := by
  induction l with
  | nil => simpa [removeB] using hs
  | cons kv rest ih =>
    obtain ⟨k, b⟩ := kv
    by_cases hkp : k = p
    · subst hkp
      simp only [removeB, if_pos rfl] at hs
      by_cases hkq : k = q
      · simp [lookupB, hkq]
      · simpa [lookupB, hkq] using hs
    · by_cases hkq : k = q
      · simp [lookupB, hkq]
      · simp only [removeB, if_neg hkp] at hs
        simp only [lookupB, if_neg hkq] at hs ⊢
        exact ih hs

/-! ### Byte-level lemmas -/

theorem readBytes_length {b : Block} {off len : Nat} {bs : List (Option Char)}
    (hr : readBytes b off len = some bs) : bs.length = len := by
  unfold readBytes at hr
  split at hr
  · rename_i hle
    cases hr
    simp [List.length_take, List.length_drop]
    omega
  · cases hr

theorem readBytes_self {b : Block} {len : Nat} (hlen : b.length = len) :
    readBytes b 0 len = some b := by
  subst hlen
  simp [readBytes]

theorem writeBytes_length {b : Block} {off : Nat} {bytes : List (Option Char)} {b' : Block}
    (hw : writeBytes b off bytes = some b') : b'.length = b.length := by
  unfold writeBytes at hw
  split at hw
  · rename_i hle
    cases hw
    simp [List.length_take, List.length_drop]
    omega
  · cases hw

theorem writeBytes_exists (b : Block) (off : Nat) (bytes : List (Option Char))
    (hle : off + bytes.length ≤ b.length) : writeBytes b off bytes = some
      (b.take off ++ bytes ++ b.drop (off + bytes.length)) := by
  simp [writeBytes, hle]

theorem take_drop_append (l₁ l₂ l₃ : List (Option Char)) (n : Nat) (hn : l₁.length = n) :
    ((l₁ ++ l₂ ++ l₃).drop n).take l₂.length = l₂ := by
  subst hn
  rw [List.append_assoc, List.drop_left, List.take_left]

theorem readBytes_writeBytes {b : Block} {off : Nat} {bytes : List (Option Char)} {b' : Block}
    (hw : writeBytes b off bytes = some b') :
    readBytes b' off bytes.length = some bytes := by
  unfold writeBytes at hw
  split at hw
  · rename_i hle
    cases hw
    have hoff : off ≤ b.length := le_trans (Nat.le_add_right _ _) hle
    have htk : (b.take off).length = off := by
      simp [List.length_take]
      omega
    unfold readBytes
    have hlen : (b.take off ++ bytes ++ b.drop (off + bytes.length)).length = b.length := by
      simp [List.length_take, List.length_drop]
      omega
    rw [if_pos (by omega)]
    rw [take_drop_append (b.take off) bytes (b.drop (off + bytes.length)) off htk]
  · cases hw

theorem writeBytes_replicate {n : Nat} {v : Option Char} {bs : List (Option Char)}
    (hlen : bs.length = n) : writeBytes (List.replicate n v) 0 bs = some bs := by
  subst hlen
  simp [writeBytes]

/-! ### Heap operation lemmas -/

/-- Heap well-formedness: every allocated pointer is below the
fresh-pointer counter. -/
def Heap.wfH (h : Heap) : Prop := ∀ p b, h.lookup p = some b → p < h.next

theorem Heap.wfH_empty : Heap.empty.wfH := by
  intro p b hb
  simp [Heap.empty, Heap.lookup, lookupB] at hb

theorem Heap.allocWith_fst (h : Heap) (b : Block) : (h.allocWith b).1 = h.next := rfl

theorem Heap.allocWith_next (h : Heap) (b : Block) :
    ((h.allocWith b).2).next = h.next + 1 := rfl

theorem Heap.lookup_allocWith_self (h : Heap) (b : Block) :
    ((h.allocWith b).2).lookup h.next = some b := by
  simp [Heap.allocWith, Heap.lookup, lookupB]

theorem Heap.lookup_allocWith_ne (h : Heap) (b : Block) (q : Nat) (hq : q ≠ h.next) :
    ((h.allocWith b).2).lookup q = h.lookup q := by
  simp [Heap.allocWith, Heap.lookup, lookupB, Ne.symm hq]

theorem Heap.wfH_allocWith {h : Heap} (hH : h.wfH) (b : Block) :
    ((h.allocWith b).2).wfH := by
  intro p bb hb
  rw [Heap.allocWith_next]
  by_cases hp : p = h.next
  · omega
  · rw [Heap.lookup_allocWith_ne h b p hp] at hb
    have := hH p bb hb
    omega

theorem Heap.store_next {h : Heap} {p off : Nat} {bytes : List (Option Char)} {h' : Heap}
    (hst : h.store p off bytes = some h') : h'.next = h.next := by
  unfold Heap.store at hst
  split at hst
  · cases hst
  · split at hst
    · cases hst
    · cases hst
      rfl

theorem Heap.lookup_store_ne {h : Heap} {p off : Nat} {bytes : List (Option Char)} {h' : Heap}
    (hst : h.store p off bytes = some h') (q : Nat) (hq : q ≠ p) :
    h'.lookup q = h.lookup q := by
  unfold Heap.store at hst
  split at hst
  · cases hst
  · split at hst
    · cases hst
    · cases hst
      simp [Heap.lookup, lookupB_storeB, hq]

theorem Heap.lookup_store_self {h : Heap} {p off : Nat} {bytes : List (Option Char)} {h' : Heap}
    (hst : h.store p off bytes = some h') :
    ∃ b b', h.lookup p = some b ∧ writeBytes b off bytes = some b' ∧ h'.lookup p = some b' := by
  unfold Heap.store at hst
  split at hst
  · cases hst
  · rename_i b hb
    split at hst
    · cases hst
    · rename_i b' hw
      cases hst
      refine ⟨b, b', hb, hw, ?_⟩
      simp [Heap.lookup, lookupB_storeB]
      simp [Heap.lookup] at hb
      simp [hb]

theorem Heap.store_eq {h : Heap} {p off : Nat} {bytes : List (Option Char)} {b b' : Block}
    (hb : h.lookup p = some b) (hw : writeBytes b off bytes = some b') :
    h.store p off bytes = some ⟨storeB h.blocks p b', h.next⟩ := by
  simp [Heap.store, hb, hw]

theorem Heap.wfH_store {h : Heap} {p off : Nat} {bytes : List (Option Char)} {h' : Heap}
    (hH : h.wfH) (hst : h.store p off bytes = some h') : h'.wfH := by
  intro q bb hb
  rw [Heap.store_next hst]
  by_cases hq : q = p
  · subst hq
    obtain ⟨b, _, hlk, _, _⟩ := Heap.lookup_store_self hst
    exact hH q b hlk
  · rw [Heap.lookup_store_ne hst q hq] at hb
    exact hH q bb hb

theorem Heap.free_next {h : Heap} {p : Nat} {h' : Heap} (hf : h.free p = some h') :
    h'.next = h.next := by
  unfold Heap.free at hf
  split at hf
  · cases hf
  · cases hf
    rfl

theorem Heap.lookup_free_ne {h : Heap} {p : Nat} {h' : Heap} (hf : h.free p = some h')
    (q : Nat) (hq : q ≠ p) : h'.lookup q = h.lookup q := by
  unfold Heap.free at hf
  split at hf
  · cases hf
  · cases hf
    exact lookupB_removeB_ne h.blocks p q hq

theorem Heap.free_eq {h : Heap} {p : Nat} {b : Block} (hb : h.lookup p = some b) :
    h.free p = some ⟨removeB h.blocks p, h.next⟩ := by
  simp [Heap.free, hb]

theorem Heap.wfH_free {h : Heap} {p : Nat} {h' : Heap} (hH : h.wfH)
    (hf : h.free p = some h') : h'.wfH := by
  intro q bb hb
  rw [Heap.free_next hf]
  unfold Heap.free at hf
  split at hf
  · cases hf
  · cases hf
    have hs : (lookupB h.blocks q).isSome = true :=
      lookupB_removeB_isSome h.blocks p q (by simp [Heap.lookup] at hb; simp [hb])
    obtain ⟨b₂, hb₂⟩ := Option.isSome_iff_exists.mp hs
    exact hH q b₂ hb₂

theorem Heap.deleteArr_next {h : Heap} {p : Option Nat} {h' : Heap}
    (hf : h.deleteArr p = some h') : h'.next = h.next := by
  unfold Heap.deleteArr at hf
  split at hf
  · cases hf
    rfl
  · exact Heap.free_next hf

theorem Heap.lookup_deleteArr_ne {h : Heap} {p : Option Nat} {h' : Heap}
    (hf : h.deleteArr p = some h') (q : Nat) (hq : p ≠ some q) :
    h'.lookup q = h.lookup q := by
  unfold Heap.deleteArr at hf
  split at hf
  · cases hf
    rfl
  · rename_i r
    exact Heap.lookup_free_ne hf q (fun he => hq (by rw [he]))

theorem Heap.wfH_deleteArr {h : Heap} {p : Option Nat} {h' : Heap} (hH : h.wfH)
    (hf : h.deleteArr p = some h') : h'.wfH := by
  unfold Heap.deleteArr at hf
  split at hf
  · cases hf
    exact hH
  · exact Heap.wfH_free hH hf

theorem Heap.memcpy_frame {h : Heap} {dst dstOff : Nat} {src : Option Nat}
    {srcOff len : Nat} {h' : Heap}
    (hm : h.memcpy dst dstOff src srcOff len = some h') :
    h'.next = h.next ∧ ∀ q, q ≠ dst → h'.lookup q = h.lookup q := by
  unfold Heap.memcpy at hm
  split at hm
  · cases hm
    exact ⟨rfl, fun q _ => rfl⟩
  · split at hm
    · cases hm
    · split at hm
      · cases hm
      · exact ⟨Heap.store_next hm, fun q hq => Heap.lookup_store_ne hm q hq⟩

theorem Heap.wfH_memcpy {h : Heap} {dst dstOff : Nat} {src : Option Nat}
    {srcOff len : Nat} {h' : Heap} (hH : h.wfH)
    (hm : h.memcpy dst dstOff src srcOff len = some h') : h'.wfH := by
  unfold Heap.memcpy at hm
  split at hm
  · cases hm
    exact hH
  · split at hm
    · cases hm
    · split at hm
      · cases hm
      · exact Heap.wfH_store hH hm

theorem Heap.memcpy_zero (h : Heap) (dst dstOff : Nat) (src : Option Nat) (srcOff : Nat) :
    h.memcpy dst dstOff src srcOff 0 = some h := by
  simp [Heap.memcpy]

theorem Heap.load_eq {h : Heap} {p : Nat} {b : Block} (off len : Nat)
    (hb : h.lookup p = some b) : h.load p off len = readBytes b off len := by
  simp [Heap.load, hb]

theorem Heap.memcpy_eq {h : Heap} {s dst dstOff srcOff len : Nat}
    {bs : List (Option Char)} {b b' : Block} (hlen : 0 < len)
    (hload : h.load s srcOff len = some bs)
    (hdst : h.lookup dst = some b)
    (hw : writeBytes b dstOff bs = some b') :
    h.memcpy dst dstOff (some s) srcOff len = some ⟨storeB h.blocks dst b', h.next⟩ := by
  have hne : ¬ len = 0 := by omega
  simp only [Heap.memcpy, if_neg hne, hload]
  exact Heap.store_eq hdst hw

theorem Heap.memcpy_dst {h : Heap} {dst dstOff : Nat} {src : Option Nat}
    {srcOff len : Nat} {h' : Heap} (hlen : 0 < len)
    (hm : h.memcpy dst dstOff src srcOff len = some h') :
    ∃ s bs b b', src = some s ∧ h.load s srcOff len = some bs ∧ bs.length = len ∧
      h.lookup dst = some b ∧ writeBytes b dstOff bs = some b' ∧
      h'.lookup dst = some b' := by
  unfold Heap.memcpy at hm
  rw [if_neg (by omega)] at hm
  split at hm
  · cases hm
  · rename_i s
    split at hm
    · cases hm
    · rename_i bs hload
      obtain ⟨b, b', hb, hw, hb'⟩ := Heap.lookup_store_self hm
      have hbl : bs.length = len := by
        unfold Heap.load at hload
        split at hload
        · cases hload
        · exact readBytes_length hload
      exact ⟨s, bs, b, b', rfl, hload, hbl, hb, hw, hb'⟩

/-- Well-formedness of a `My_string` object relative to a heap: the
capacity bounds the length; a null pointer goes with zero length and
capacity; a non-null pointer owns an allocated block at least as large
as the recorded capacity. -/
def wfStr (h : Heap) (s : MyString) : Prop :=
  s._length ≤ s._size ∧
  (s._init = none → s._length = 0 ∧ s._size = 0) ∧
  ∀ p, s._init = some p → ∃ b, h.lookup p = some b ∧ s._size ≤ b.length

/-! ### Operation-level lemmas -/

theorem Heap.lookup_allocRaw_self (h : Heap) (n : Nat) :
    ((h.allocRaw n).2).lookup h.next = some (List.replicate n none) :=
  Heap.lookup_allocWith_self h _

theorem Heap.lookup_allocRaw_ne (h : Heap) (n q : Nat) (hq : q ≠ h.next) :
    ((h.allocRaw n).2).lookup q = h.lookup q :=
  Heap.lookup_allocWith_ne h _ q hq

theorem Heap.allocRaw_next (h : Heap) (n : Nat) : ((h.allocRaw n).2).next = h.next + 1 :=
  rfl

theorem Heap.wfH_allocRaw {h : Heap} (hH : h.wfH) (n : Nat) : ((h.allocRaw n).2).wfH :=
  Heap.wfH_allocWith hH _

theorem contentOf_congr {h h' : Heap} {s : MyString}
    (hlk : ∀ p, s._init = some p → h'.lookup p = h.lookup p) :
    contentOf h' s = contentOf h s := by
  unfold contentOf
  split
  · rfl
  · cases hinit : s._init with
    | none => rfl
    | some p =>
      show h'.load p 0 s._length = h.load p 0 s._length
      unfold Heap.load
      rw [hlk p hinit]

theorem fromBytes_spec (h : Heap) (s : List Char) :
    fromBytes h s =
      some (⟨some h.next, s.length, s.length⟩,
        ⟨(h.next, s.map some) :: h.blocks, h.next + 1⟩) := by
  unfold fromBytes Heap.allocZero Heap.allocWith
  simp only
  have hb : (Heap.mk ((h.next, List.replicate s.length (some (Char.ofNat 0))) :: h.blocks)
      (h.next + 1)).lookup h.next = some (List.replicate s.length (some (Char.ofNat 0))) := by
    simp [Heap.lookup, lookupB]
  rw [Heap.store_eq hb (writeBytes_replicate (by simp))]
  simp [storeB]

theorem wfH_fromBytes {h : Heap} {s : List Char} {t : MyString} {h' : Heap}
    (hH : h.wfH) (hf : fromBytes h s = some (t, h')) : h'.wfH := by
  rw [fromBytes_spec] at hf
  cases hf
  intro q b hb
  show q < h.next + 1
  simp only [Heap.lookup, lookupB] at hb
  split at hb
  · rename_i heq
    omega
  · have := hH q b hb
    omega

theorem deleteArr_exists_of_wf {h : Heap} {s : MyString} (hs : wfStr h s) :
    ∃ h', h.deleteArr s._init = some h' ∧ h'.next = h.next ∧
      (∀ q, s._init ≠ some q → h'.lookup q = h.lookup q) ∧ (h.wfH → h'.wfH) := by
  obtain ⟨-, hnil, hblk⟩ := hs
  cases hinit : s._init with
  | none =>
    exact ⟨h, rfl, rfl, fun _ _ => rfl, fun hH => hH⟩
  | some p =>
    obtain ⟨b, hb, -⟩ := hblk p hinit
    have hf : h.deleteArr (some p) = some ⟨removeB h.blocks p, h.next⟩ := Heap.free_eq hb
    refine ⟨_, hf, rfl, ?_, fun hH => Heap.wfH_deleteArr hH hf⟩
    intro q hq
    exact Heap.lookup_deleteArr_ne hf q hq

theorem memcpy_into_fresh {h : Heap} {S : MyString} (hH : h.wfH)
    (hnil : S._init = none → S._length = 0)
    (hblk : ∀ p, S._init = some p → ∃ b, h.lookup p = some b ∧ S._length ≤ b.length) :
    ∃ bs h', contentOf h S = some bs ∧ bs.length = S._length ∧
      ((h.allocRaw S._length).2).memcpy h.next 0 S._init 0 S._length = some h' ∧
      h'.next = h.next + 1 ∧ h'.wfH ∧ h'.lookup h.next = some bs ∧
      (∀ q, q ≠ h.next → h'.lookup q = h.lookup q) := by
  by_cases hlen : S._length = 0
  · refine ⟨[], (h.allocRaw S._length).2, by simp [contentOf, hlen], by simp [hlen],
      ?_, Heap.allocRaw_next h _, Heap.wfH_allocRaw hH _, ?_, ?_⟩
    · rw [hlen]
      exact Heap.memcpy_zero _ _ _ _ _
    · have := Heap.lookup_allocRaw_self h S._length
      rw [hlen] at this ⊢
      exact this
    · intro q hq
      exact Heap.lookup_allocRaw_ne h _ q hq
  · cases hinit : S._init with
    | none => exact absurd (hnil hinit) hlen
    | some p0 =>
      obtain ⟨b0, hb0, hble⟩ := hblk p0 hinit
      have hp0 : p0 < h.next := hH p0 b0 hb0
      have hread : readBytes b0 0 S._length = some ((b0.drop 0).take S._length) := by
        simp [readBytes, hble]
      have hbslen : ((b0.drop 0).take S._length).length = S._length := readBytes_length hread
      have hcontent : contentOf h S = some ((b0.drop 0).take S._length) := by
        rw [contentOf, if_neg hlen, hinit]
        show h.load p0 0 S._length = some ((b0.drop 0).take S._length)
        rw [Heap.load_eq 0 S._length hb0, hread]
      have hb0' : ((h.allocRaw S._length).2).lookup p0 = some b0 := by
        rw [Heap.lookup_allocRaw_ne h _ p0 (by omega)]
        exact hb0
      have hload : ((h.allocRaw S._length).2).load p0 0 S._length =
          some ((b0.drop 0).take S._length) := by
        rw [Heap.load_eq 0 S._length hb0', hread]
      have hdstblk : ((h.allocRaw S._length).2).lookup h.next =
          some (List.replicate S._length none) := Heap.lookup_allocRaw_self h _
      have hw : writeBytes (List.replicate S._length none) 0 ((b0.drop 0).take S._length) =
          some ((b0.drop 0).take S._length) := writeBytes_replicate hbslen
      have hm := Heap.memcpy_eq (Nat.pos_of_ne_zero hlen) hload hdstblk hw
      refine ⟨(b0.drop 0).take S._length, _, hcontent, hbslen, hm, rfl, ?_, ?_, ?_⟩
      · exact Heap.wfH_store (Heap.wfH_allocRaw hH _) (Heap.store_eq hdstblk hw)
      · show (Heap.mk (storeB ((h.allocRaw S._length).2).blocks h.next
            ((b0.drop 0).take S._length)) ((h.allocRaw S._length).2).next).lookup h.next =
          some ((b0.drop 0).take S._length)
        have hlkB : lookupB ((h.allocRaw S._length).2).blocks h.next =
            some (List.replicate S._length none) := hdstblk
        simp [Heap.lookup, lookupB_storeB, hlkB]
      · intro q hq
        show (Heap.mk (storeB ((h.allocRaw S._length).2).blocks h.next
            ((b0.drop 0).take S._length)) ((h.allocRaw S._length).2).next).lookup q =
          h.lookup q
        have : (Heap.mk (storeB ((h.allocRaw S._length).2).blocks h.next
            ((b0.drop 0).take S._length)) ((h.allocRaw S._length).2).next).lookup q =
            ((h.allocRaw S._length).2).lookup q := by
          simp [Heap.lookup, lookupB_storeB, hq]
        rw [this]
        exact Heap.lookup_allocRaw_ne h _ q hq

theorem copyCtor_spec {h : Heap} {S : MyString} (hH : h.wfH) (hS : wfStr h S) :
    ∃ bs h', contentOf h S = some bs ∧ bs.length = S._length ∧
      copyCtor h S = some (⟨some h.next, S._length, S._size⟩, h') ∧
      h'.next = h.next + 1 ∧ h'.wfH ∧ h'.lookup h.next = some bs ∧
      (∀ q, q ≠ h.next → h'.lookup q = h.lookup q) := by
  obtain ⟨hls, hnil, hblk⟩ := hS
  have hblk' : ∀ p, S._init = some p → ∃ b, h.lookup p = some b ∧ S._length ≤ b.length := by
    intro p hp
    obtain ⟨b, hb, hble⟩ := hblk p hp
    exact ⟨b, hb, le_trans hls hble⟩
  obtain ⟨bs, h', hc, hlen, hm, hnext, hwf, hself, hne⟩ :=
    memcpy_into_fresh hH (fun hi => (hnil hi).1) hblk'
  refine ⟨bs, h', hc, hlen, ?_, hnext, hwf, hself, hne⟩
  unfold copyCtor
  simp only [Heap.allocRaw, Heap.allocWith] at hm ⊢
  rw [hm]

theorem copyAssign_spec {h : Heap} {T0 S : MyString} (hH : h.wfH)
    (hT : wfStr h T0) (hS : wfStr h S)
    (hdist : ∀ q, T0._init = some q → S._init ≠ some q) :
    ∃ bs h', contentOf h S = some bs ∧ bs.length = S._length ∧
      copyAssign h T0 S = some (⟨some h.next, S._length, S._size⟩, h') ∧
      h'.next = h.next + 1 ∧ h'.wfH ∧ h'.lookup h.next = some bs ∧
      (∀ q, q ≠ h.next → T0._init ≠ some q → h'.lookup q = h.lookup q) ∧
      contentOf h' S = contentOf h S := by
  obtain ⟨h1, hdel, hnext1, hlk1, hwf1⟩ := deleteArr_exists_of_wf hT
  have hS1 : ∀ p, S._init = some p → ∃ b, h1.lookup p = some b ∧ S._length ≤ b.length := by
    intro p hp
    obtain ⟨b, hb, hble⟩ := hS.2.2 p hp
    refine ⟨b, ?_, le_trans hS.1 hble⟩
    rw [hlk1 p (fun he => hdist p he hp)]
    exact hb
  obtain ⟨bs, h', hc1, hlen, hm, hnext', hwf', hself, hne⟩ :=
    memcpy_into_fresh (hwf1 hH) (fun hi => (hS.2.1 hi).1) hS1
  rw [hnext1] at hnext' hself hne
  have hceq : contentOf h1 S = contentOf h S :=
    contentOf_congr (fun p hp => hlk1 p (fun he => hdist p he hp))
  have hca : copyAssign h T0 S = some (⟨some h.next, S._length, S._size⟩, h') := by
    unfold copyAssign
    rw [hdel]
    simp only [Heap.allocRaw, Heap.allocWith] at hm ⊢
    rw [hnext1] at hm
    rw [hnext1]
    rw [hm]
  refine ⟨bs, h', by rw [← hceq]; exact hc1, hlen, hca, hnext', hwf', hself, ?_, ?_⟩
  · intro q hq hq2
    rw [hne q hq, hlk1 q hq2]
  · have hlk' : ∀ p, S._init = some p → h'.lookup p = h.lookup p := by
      intro p hp
      have hqp : p ≠ h.next := by
        obtain ⟨b, hb, -⟩ := hS.2.2 p hp
        have := hH p b hb
        omega
      rw [hne p hqp, hlk1 p (fun he => hdist p he hp)]
    exact contentOf_congr hlk'

theorem deleteArr_exists' {h : Heap} {P : Option Nat}
    (hex : ∀ p, P = some p → ∃ b, h.lookup p = some b) :
    ∃ h', h.deleteArr P = some h' ∧ h'.next = h.next ∧
      (∀ q, P ≠ some q → h'.lookup q = h.lookup q) := by
  cases hP : P with
  | none => exact ⟨h, rfl, rfl, fun _ _ => rfl⟩
  | some p =>
    obtain ⟨b, hb⟩ := hex p hP
    have hf : h.deleteArr (some p) = some ⟨removeB h.blocks p, h.next⟩ := Heap.free_eq hb
    exact ⟨_, hf, rfl, fun q hq => Heap.lookup_deleteArr_ne hf q hq⟩

theorem moveAssign_spec {h : Heap} {T0 : MyString} (S : MyString) (hT : wfStr h T0) :
    ∃ h', moveAssign h T0 S = some (⟨S._init, S._length, S._size⟩, ⟨none, 0, 0⟩, h') ∧
      h'.next = h.next ∧ (∀ q, T0._init ≠ some q → h'.lookup q = h.lookup q) ∧
      (h.wfH → h'.wfH) := by
  obtain ⟨h1, hdel, hnext1, hlk1, hwf1⟩ := deleteArr_exists_of_wf hT
  refine ⟨h1, ?_, hnext1, hlk1, hwf1⟩
  unfold moveAssign
  rw [hdel]

theorem copyAssignSelf_spec {h : Heap} {x : MyString} (hx : wfStr h x) :
    ∃ x' h', copyAssignSelf h x = some (x', h') ∧
      x'._length = x._length ∧ x'._size = x._size ∧
      contentOf h' x' = some (List.replicate x._length none) := by
  obtain ⟨h1, hdel, hnext1, hlk1, hwf1⟩ := deleteArr_exists_of_wf hx
  have hcontent : ∀ h' : Heap, h'.lookup h1.next = some (List.replicate x._length none) →
      contentOf h' ⟨some h1.next, x._length, x._size⟩ =
        some (List.replicate x._length none) := by
    intro h' hlk
    by_cases hl : x._length = 0
    · simp [contentOf, hl]
    · rw [contentOf, if_neg hl]
      show h'.load h1.next 0 x._length = some (List.replicate x._length none)
      rw [Heap.load_eq 0 x._length hlk]
      exact readBytes_self (by simp)
  by_cases hlen : x._length = 0
  · refine ⟨⟨some h1.next, x._length, x._size⟩, (h1.allocRaw x._length).2, ?_, rfl, rfl,
      hcontent _ (Heap.lookup_allocRaw_self h1 _)⟩
    unfold copyAssignSelf
    rw [hdel]
    have hmz : ((h1.allocRaw x._length).2).memcpy h1.next 0 (some h1.next) 0 x._length =
        some ((h1.allocRaw x._length).2) := by
      rw [hlen]
      exact Heap.memcpy_zero _ _ _ _ _
    simp only [Heap.allocRaw, Heap.allocWith] at hmz ⊢
    rw [hmz]
  · have hdstblk : ((h1.allocRaw x._length).2).lookup h1.next =
        some (List.replicate x._length none) := Heap.lookup_allocRaw_self h1 _
    have hload : ((h1.allocRaw x._length).2).load h1.next 0 x._length =
        some (List.replicate x._length none) := by
      rw [Heap.load_eq 0 x._length hdstblk]
      exact readBytes_self (by simp)
    have hw : writeBytes (List.replicate x._length none) 0 (List.replicate x._length none) =
        some (List.replicate x._length none) := writeBytes_replicate (by simp)
    have hm := Heap.memcpy_eq (Nat.pos_of_ne_zero hlen) hload hdstblk hw
    refine ⟨⟨some h1.next, x._length, x._size⟩,
      ⟨storeB ((h1.allocRaw x._length).2).blocks h1.next (List.replicate x._length none),
        ((h1.allocRaw x._length).2).next⟩, ?_, rfl, rfl, hcontent _ ?_⟩
    · unfold copyAssignSelf
      rw [hdel]
      simp only [Heap.allocRaw, Heap.allocWith] at hm ⊢
      rw [hm]
    · show (Heap.mk (storeB ((h1.allocRaw x._length).2).blocks h1.next
          (List.replicate x._length none)) ((h1.allocRaw x._length).2).next).lookup h1.next =
        some (List.replicate x._length none)
      have hlkB : lookupB ((h1.allocRaw x._length).2).blocks h1.next =
          some (List.replicate x._length none) := hdstblk
      simp [Heap.lookup, lookupB_storeB, hlkB]

theorem resize_spec {h : Heap} {s : MyString} {newLength : Nat} {l1 : MyString} {h1 : Heap}
    (hH : h.wfH) (hr : resize h s newLength = some (l1, h1)) :
    l1 = ⟨some h.next, s._length, s._size⟩ ∧ h1.next = h.next + 1 ∧ h1.wfH ∧
    (∀ q, q < h.next → s._init ≠ some q → h1.lookup q = h.lookup q) := by
  unfold resize at hr
  simp only [Heap.allocRaw, Heap.allocWith] at hr
  split at hr
  · cases hr
  · rename_i h2 hm
    split at hr
    · cases hr
    · rename_i h3 hdel
      cases hr
      have hwfA : Heap.wfH ⟨(h.next, List.replicate (s._size + newLength) none) :: h.blocks,
          h.next + 1⟩ := Heap.wfH_allocWith hH _
      obtain ⟨hn2, hfr2⟩ := Heap.memcpy_frame hm
      refine ⟨rfl, ?_, ?_, ?_⟩
      · rw [Heap.deleteArr_next hdel, hn2]
      · exact Heap.wfH_deleteArr (Heap.wfH_memcpy hwfA hm) hdel
      · intro q hq hqs
        rw [Heap.lookup_deleteArr_ne hdel q (fun he => hqs he)]
        rw [hfr2 q (by omega)]
        show (Heap.mk ((h.next, List.replicate (s._size + newLength) none) :: h.blocks)
          (h.next + 1)).lookup q = h.lookup q
        simp [Heap.lookup, lookupB]
        omega

theorem appendOp_fields {h : Heap} {a b a' : MyString} {h' : Heap}
    (happ : appendOp h a b = some (a', h')) :
    a'._length = a._length ∧ a'._size = a._size := by
  unfold appendOp at happ
  split at happ
  · cases happ
  · rename_i l1 h1 hif
    have hfields : l1._length = a._length ∧ l1._size = a._size := by
      by_cases hc : a._size ≤ b._length
      · rw [if_pos hc] at hif
        unfold resize at hif
        simp only [Heap.allocRaw, Heap.allocWith] at hif
        split at hif
        · cases hif
        · split at hif
          · cases hif
          · cases hif
            exact ⟨rfl, rfl⟩
      · rw [if_neg hc] at hif
        cases hif
        exact ⟨rfl, rfl⟩
    split at happ
    · split at happ
      · cases happ
        exact hfields
      · cases happ
    · split at happ
      · cases happ
      · cases happ
        exact hfields

theorem appendOp_spec {h : Heap} {a b a' : MyString} {h' : Heap} (hH : h.wfH)
    (happ : appendOp h a b = some (a', h')) :
    h.next ≤ h'.next ∧ h'.wfH ∧
    (∀ q, q < h.next → a._init ≠ some q → h'.lookup q = h.lookup q) := by
  unfold appendOp at happ
  split at happ
  · cases happ
  · rename_i l1 h1 hif
    by_cases hc : a._size ≤ b._length
    · rw [if_pos hc] at hif
      obtain ⟨hl1, hn1, hw1, hfr1⟩ := resize_spec hH hif
      split at happ
      · rename_i hinit
        rw [hl1] at hinit
        cases hinit
      · rename_i p hinit
        rw [hl1] at hinit
        cases hinit
        split at happ
        · cases happ
        · rename_i h2 hm
          cases happ
          obtain ⟨hn2, hfr2⟩ := Heap.memcpy_frame hm
          refine ⟨by omega, Heap.wfH_memcpy hw1 hm, ?_⟩
          intro q hq hqa
          rw [hfr2 q (by omega), hfr1 q hq hqa]
    · rw [if_neg hc] at hif
      cases hif
      split at happ
      · split at happ
        · cases happ
          exact ⟨le_refl _, hH, fun q _ _ => rfl⟩
        · cases happ
      · rename_i p hinit
        split at happ
        · cases happ
        · rename_i h2 hm
          cases happ
          obtain ⟨hn2, hfr2⟩ := Heap.memcpy_frame hm
          refine ⟨by omega, Heap.wfH_memcpy hH hm, ?_⟩
          intro q hq hqa
          refine hfr2 q ?_
          intro he
          exact hqa (by rw [hinit, he])

theorem appendOp_grow_spec {h : Heap} {a b : MyString} (hH : h.wfH)
    (ha : wfStr h a) (hb : wfStr h b)
    (hdist : ∀ q, a._init = some q → b._init ≠ some q)
    (hgrow : a._size ≤ b._length) :
    ∃ bs h', contentOf h b = some bs ∧
      appendOp h a b = some (⟨some h.next, a._length, a._size⟩, h') ∧
      h'.load h.next a._length b._length = some bs := by
  have haninit : a._init ≠ some h.next := by
    intro he
    obtain ⟨blk, hblk, -⟩ := ha.2.2 h.next he
    have := hH h.next blk hblk
    omega
  -- step 1: `memcpy(aux, _init, _length)` into the fresh block
  have step1 : ∃ h2 R,
      ((h.allocRaw (a._size + b._length)).2).memcpy h.next 0 a._init 0 a._length = some h2 ∧
      h2.next = h.next + 1 ∧
      h2.lookup h.next = some R ∧ R.length = a._size + b._length ∧
      (∀ q, q ≠ h.next → h2.lookup q = h.lookup q) := by
    by_cases hlenA : a._length = 0
    · refine ⟨(h.allocRaw (a._size + b._length)).2, List.replicate (a._size + b._length) none,
        ?_, rfl, Heap.lookup_allocRaw_self h _, by simp, ?_⟩
      · rw [hlenA]
        exact Heap.memcpy_zero _ _ _ _ _
      · intro q hq
        exact Heap.lookup_allocRaw_ne h _ q hq
    · cases hinitA : a._init with
      | none => exact absurd (ha.2.1 hinitA).1 hlenA
      | some p0 =>
        obtain ⟨b0, hb0, hble0⟩ := ha.2.2 p0 hinitA
        have hp0 : p0 < h.next := hH p0 b0 hb0
        have halen : a._length ≤ b0.length := le_trans ha.1 hble0
        have hb0A : ((h.allocRaw (a._size + b._length)).2).lookup p0 = some b0 := by
          rw [Heap.lookup_allocRaw_ne h _ p0 (by omega)]
          exact hb0
        have hread : readBytes b0 0 a._length = some ((b0.drop 0).take a._length) := by
          simp [readBytes, halen]
        have hload : ((h.allocRaw (a._size + b._length)).2).load p0 0 a._length =
            some ((b0.drop 0).take a._length) := by
          rw [Heap.load_eq 0 a._length hb0A, hread]
        have hlenas : ((b0.drop 0).take a._length).length = a._length := readBytes_length hread
        have hwb := writeBytes_exists (List.replicate (a._size + b._length) none)
          0 ((b0.drop 0).take a._length)
          (by
            have h2 := ha.1
            simp only [hlenas, List.length_replicate]
            omega)
        have hm := Heap.memcpy_eq
          (Nat.pos_of_ne_zero hlenA) hload (Heap.lookup_allocRaw_self h _) hwb
        set R0 : Block := List.take 0 (List.replicate (a._size + b._length) none) ++
          (b0.drop 0).take a._length ++
          List.drop (0 + ((b0.drop 0).take a._length).length)
            (List.replicate (a._size + b._length) none) with hR0
        refine ⟨⟨storeB ((h.allocRaw (a._size + b._length)).2).blocks h.next R0,
          ((h.allocRaw (a._size + b._length)).2).next⟩, R0, hm, rfl, ?_, ?_, ?_⟩
        · have hlkB : lookupB ((h.allocRaw (a._size + b._length)).2).blocks h.next =
              some (List.replicate (a._size + b._length) none) :=
            Heap.lookup_allocRaw_self h _
          simp [Heap.lookup, lookupB_storeB, hlkB]
        · rw [writeBytes_length hwb]
          simp
        · intro q hq
          have hstep : (Heap.mk (storeB ((h.allocRaw (a._size + b._length)).2).blocks h.next R0)
              ((h.allocRaw (a._size + b._length)).2).next).lookup q =
              ((h.allocRaw (a._size + b._length)).2).lookup q := by
            simp [Heap.lookup, lookupB_storeB, hq]
          rw [hstep]
          exact Heap.lookup_allocRaw_ne h _ q hq
  obtain ⟨h2, R, hm1, hn2, hlkaux2, hRlen, hfr2⟩ := step1
  -- step 2: `delete[] old`
  have hdex : ∀ p, a._init = some p → ∃ blk, h2.lookup p = some blk := by
    intro p hp
    obtain ⟨blk, hblk, -⟩ := ha.2.2 p hp
    have hplt : p < h.next := hH p blk hblk
    refine ⟨blk, ?_⟩
    rw [hfr2 p (by omega)]
    exact hblk
  obtain ⟨h3, hdel3, hnext3, hfr3⟩ := deleteArr_exists' hdex
  have hlkaux3 : h3.lookup h.next = some R := by
    rw [hfr3 h.next (fun he => haninit he)]
    exact hlkaux2
  have hres : resize h a b._length = some (⟨some h.next, a._length, a._size⟩, h3) := by
    unfold resize
    simp only [Heap.allocRaw, Heap.allocWith] at hm1 ⊢
    rw [hm1]
    show (match h2.deleteArr a._init with
      | none => none
      | some hh => some ((⟨some h.next, a._length, a._size⟩ : MyString), hh)) =
      some ((⟨some h.next, a._length, a._size⟩ : MyString), h3)
    rw [hdel3]
  have hbframe : ∀ pb, b._init = some pb → h3.lookup pb = h.lookup pb := by
    intro pb hpb
    obtain ⟨bb, hbb, -⟩ := hb.2.2 pb hpb
    have hpblt : pb < h.next := hH pb bb hbb
    rw [hfr3 pb (fun he => hdist pb he hpb), hfr2 pb (by omega)]
  by_cases hlenB : b._length = 0
  · -- zero-length right-hand side: the final memcpy touches nothing
    refine ⟨[], h3, by simp [contentOf, hlenB], ?_, ?_⟩
    · unfold appendOp
      rw [if_pos hgrow, hres]
      show (match (⟨some h.next, a._length, a._size⟩ : MyString)._init with
        | none => if b._length = 0 then some ((⟨some h.next, a._length, a._size⟩ : MyString), h3)
                  else none
        | some p =>
          match h3.memcpy p (⟨some h.next, a._length, a._size⟩ : MyString)._length
              b._init 0 b._length with
          | none => none
          | some h2 => some ((⟨some h.next, a._length, a._size⟩ : MyString), h2)) =
        some ((⟨some h.next, a._length, a._size⟩ : MyString), h3)
      show (match h3.memcpy h.next a._length b._init 0 b._length with
        | none => none
        | some h2 => some ((⟨some h.next, a._length, a._size⟩ : MyString), h2)) =
        some ((⟨some h.next, a._length, a._size⟩ : MyString), h3)
      rw [hlenB, Heap.memcpy_zero]
    · rw [Heap.load_eq a._length b._length hlkaux3, hlenB]
      rw [readBytes]
      have h1 := ha.1
      rw [if_pos (show a._length + 0 ≤ List.length R by omega)]
      simp
  · cases hinitB : b._init with
    | none => exact absurd (hb.2.1 hinitB).1 hlenB
    | some pb =>
      obtain ⟨bb, hbb, hbleb⟩ := hb.2.2 pb hinitB
      have hblen : b._length ≤ bb.length := le_trans hb.1 hbleb
      have hreadb : readBytes bb 0 b._length = some ((bb.drop 0).take b._length) := by
        simp [readBytes, hblen]
      have hlenbs : ((bb.drop 0).take b._length).length = b._length := readBytes_length hreadb
      have hcb : contentOf h b = some ((bb.drop 0).take b._length) := by
        rw [contentOf, if_neg hlenB, hinitB]
        show h.load pb 0 b._length = some ((bb.drop 0).take b._length)
        rw [Heap.load_eq 0 b._length hbb, hreadb]
      have hlkpb3 : h3.lookup pb = some bb := by
        rw [hbframe pb hinitB]
        exact hbb
      have hload3 : h3.load pb 0 b._length = some ((bb.drop 0).take b._length) := by
        rw [Heap.load_eq 0 b._length hlkpb3, hreadb]
      have hwb2 := writeBytes_exists R a._length ((bb.drop 0).take b._length)
        (by
          have h1 := ha.1
          rw [hlenbs]
          omega)
      have hm2 := Heap.memcpy_eq (Nat.pos_of_ne_zero hlenB) hload3 hlkaux3 hwb2
      refine ⟨(bb.drop 0).take b._length,
        ⟨storeB h3.blocks h.next (R.take a._length ++ (bb.drop 0).take b._length ++
          R.drop (a._length + ((bb.drop 0).take b._length).length)), h3.next⟩, hcb, ?_, ?_⟩
      · unfold appendOp
        rw [if_pos hgrow, hres]
        show (match h3.memcpy h.next a._length b._init 0 b._length with
          | none => none
          | some h2 => some ((⟨some h.next, a._length, a._size⟩ : MyString), h2)) =
          some ((⟨some h.next, a._length, a._size⟩ : MyString),
            ⟨storeB h3.blocks h.next (R.take a._length ++ (bb.drop 0).take b._length ++
              R.drop (a._length + ((bb.drop 0).take b._length).length)), h3.next⟩)
        rw [hinitB, hm2]
      · have hlkaux' : (Heap.mk (storeB h3.blocks h.next
            (R.take a._length ++ (bb.drop 0).take b._length ++
              R.drop (a._length + ((bb.drop 0).take b._length).length))) h3.next).lookup
            h.next = some (R.take a._length ++ (bb.drop 0).take b._length ++
              R.drop (a._length + ((bb.drop 0).take b._length).length)) := by
          have hlkB : lookupB h3.blocks h.next = some R := hlkaux3
          simp [Heap.lookup, lookupB_storeB, hlkB]
        rw [Heap.load_eq a._length b._length hlkaux']
        have hgoal : readBytes (R.take a._length ++ (bb.drop 0).take b._length ++
            R.drop (a._length + ((bb.drop 0).take b._length).length)) a._length b._length =
            readBytes (R.take a._length ++ (bb.drop 0).take b._length ++
            R.drop (a._length + ((bb.drop 0).take b._length).length)) a._length
            ((bb.drop 0).take b._length).length := by
          rw [hlenbs]
        rw [hgoal]
        exact readBytes_writeBytes hwb2

theorem copyCtor_fields {h : Heap} {s t' : MyString} {h' : Heap}
    (hcc : copyCtor h s = some (t', h')) : t'._length = s._length ∧ t'._size = s._size := by
  unfold copyCtor at hcc
  simp only [Heap.allocRaw, Heap.allocWith] at hcc
  split at hcc
  · cases hcc
  · cases hcc
    exact ⟨rfl, rfl⟩

theorem copyAssign_fields {h : Heap} {t s t' : MyString} {h' : Heap}
    (hca : copyAssign h t s = some (t', h')) :
    t'._length = s._length ∧ t'._size = s._size := by
  unfold copyAssign at hca
  split at hca
  · cases hca
  · rename_i h1 hdel
    simp only [Heap.allocRaw, Heap.allocWith] at hca
    split at hca
    · cases hca
    · cases hca
      exact ⟨rfl, rfl⟩

theorem moveAssign_fields {h : Heap} {t s T' S' : MyString} {h' : Heap}
    (hma : moveAssign h t s = some (T', S', h')) :
    T' = ⟨s._init, s._length, s._size⟩ ∧ S' = ⟨none, 0, 0⟩ := by
  unfold moveAssign at hma
  split at hma
  · cases hma
  · cases hma
    exact ⟨rfl, rfl⟩

theorem print_str_some {h : Heap} {p : Nat} {b : Block} (s : MyString)
    (hinit : s._init = some p) (hb : h.lookup p = some b) :
    print_str h s = (match strlenWithin b with
      | none => Render.invalid
      | some n => Render.text ((b.take n).filterMap id)) := by
  unfold print_str
  rw [hinit]
  show (match h.lookup p with
    | none => Render.invalid
    | some bb =>
      match strlenWithin bb with
      | none => Render.invalid
      | some n => Render.text ((bb.take n).filterMap id)) = _
  rw [hb]

theorem lookupB_mem {l : List (Nat × Block)} {p : Nat} {b : Block}
    (hb : lookupB l p = some b) : (p, b) ∈ l := by
  induction l with
  | nil => cases hb
  | cons kv rest ih =>
    obtain ⟨k, bb⟩ := kv
    unfold lookupB at hb
    split at hb
    · rename_i hk
      cases hb
      subst hk
      exact List.mem_cons_self _ _
    · exact List.mem_cons_of_mem _ (ih hb)

theorem Heap.wfH_of_forall {h : Heap} (hk : ∀ pr ∈ h.blocks, pr.1 < h.next) : h.wfH :=
  fun p b hb => hk (p, b) (lookupB_mem hb)

/-! ### Claim theorems -/

/-- C1: for every well-formed source `S` and distinct well-formed target,
transfer-construction and transfer-assignment give the target `S`'s
pre-transfer content and leave `S` in the empty-marker state (`_init`
null, `_length` and `_size` zero). -/
theorem c1_transfer_moves_content_resets_source (h : Heap) (S T0 : MyString)
    (hH : h.wfH) (hS : wfStr h S) (hT : wfStr h T0)
    (hdist : ∀ q, T0._init = some q → S._init ≠ some q) :
    ((moveCtor S).1._init = S._init ∧
      contentOf h (moveCtor S).1 = contentOf h S ∧
      (moveCtor S).2 = ⟨none, 0, 0⟩) ∧
    (∃ T' S' h', moveAssign h T0 S = some (T', S', h') ∧
      contentOf h' T' = contentOf h S ∧
      S' = ⟨none, 0, 0⟩) := by
  constructor
  · exact ⟨rfl, rfl, rfl⟩
  · obtain ⟨h', hma, hnext', hlk', hwf'⟩ := moveAssign_spec S hT
    refine ⟨_, _, h', hma, ?_, rfl⟩
    have hcc : contentOf h' S = contentOf h S :=
      contentOf_congr (fun p hp => hlk' p (fun he => hdist p he hp))
    exact hcc

/-- Witness for C1 at a concrete heap holding two distinct buffers. -/
theorem c1_transfer_witness :
    ((moveCtor ⟨some 0, 1, 1⟩).1._init = (⟨some 0, 1, 1⟩ : MyString)._init ∧
      contentOf ⟨[(0, [some 'a']), (1, [some 'b'])], 2⟩ (moveCtor ⟨some 0, 1, 1⟩).1 =
        contentOf ⟨[(0, [some 'a']), (1, [some 'b'])], 2⟩ ⟨some 0, 1, 1⟩ ∧
      (moveCtor ⟨some 0, 1, 1⟩).2 = ⟨none, 0, 0⟩) ∧
    (∃ T' S' h', moveAssign ⟨[(0, [some 'a']), (1, [some 'b'])], 2⟩
        ⟨some 1, 1, 1⟩ ⟨some 0, 1, 1⟩ = some (T', S', h') ∧
      contentOf h' T' = contentOf ⟨[(0, [some 'a']), (1, [some 'b'])], 2⟩ ⟨some 0, 1, 1⟩ ∧
      S' = ⟨none, 0, 0⟩) := by
  refine c1_transfer_moves_content_resets_source
    ⟨[(0, [some 'a']), (1, [some 'b'])], 2⟩ ⟨some 0, 1, 1⟩ ⟨some 1, 1, 1⟩ ?_ ?_ ?_ ?_
  · exact Heap.wfH_of_forall (by decide)
  · refine ⟨le_refl 1, ?_, ?_⟩
    · intro hx
      cases hx
    · intro p hp
      cases hp
      exact ⟨[some 'a'], rfl, by decide⟩
  · refine ⟨le_refl 1, ?_, ?_⟩
    · intro hx
      cases hx
    · intro p hp
      cases hp
      exact ⟨[some 'b'], by decide, by decide⟩
  · intro q hq he
    injection hq with h1
    injection he with h2
    omega

/-- C2: duplicating (construct or assign) from a well-formed source `S`
into a distinct target copies the content into a freshly allocated
buffer distinct from `S`'s, leaves `S`'s fields and block untouched,
and a later append on the duplicate never modifies `S`'s block. -/
theorem c2_duplicate_independent (h : Heap) (S : MyString)
    (hH : h.wfH) (hS : wfStr h S) :
    (∃ T h', copyCtor h S = some (T, h') ∧
      T._length = S._length ∧ T._size = S._size ∧
      (∀ q, S._init = some q → h'.lookup q = h.lookup q) ∧
      contentOf h' S = contentOf h S ∧
      contentOf h' T = contentOf h S ∧
      (∀ q, S._init = some q → T._init ≠ some q) ∧
      (∀ B T' h'', appendOp h' T B = some (T', h'') →
        ∀ q, S._init = some q → h''.lookup q = h'.lookup q)) ∧
    (∀ T0, wfStr h T0 → (∀ q, T0._init = some q → S._init ≠ some q) →
      ∃ T h', copyAssign h T0 S = some (T, h') ∧
        T._length = S._length ∧ T._size = S._size ∧
        (∀ q, S._init = some q → h'.lookup q = h.lookup q) ∧
        contentOf h' S = contentOf h S ∧
        contentOf h' T = contentOf h S ∧
        (∀ q, S._init = some q → T._init ≠ some q)) := by
  have hqlt : ∀ q, S._init = some q → q < h.next := by
    intro q hq
    obtain ⟨b, hb, -⟩ := hS.2.2 q hq
    exact hH q b hb
  constructor
  · obtain ⟨bs, h', hc, hlen, hcc, hnext', hwf', hself, hne⟩ := copyCtor_spec hH hS
    have hlkpre : ∀ q, S._init = some q → h'.lookup q = h.lookup q := by
      intro q hq
      have := hqlt q hq
      exact hne q (by omega)
    refine ⟨_, h', hcc, rfl, rfl, hlkpre, contentOf_congr hlkpre, ?_, ?_, ?_⟩
    · by_cases hl : S._length = 0
      · have hbs0 : bs = [] := List.length_eq_zero.mp (by omega)
        simp [contentOf, hl, hc, hbs0]
      · rw [contentOf, if_neg hl]
        show h'.load h.next 0 S._length = contentOf h S
        rw [Heap.load_eq 0 S._length hself, hc]
        exact readBytes_self hlen
    · intro q hq he
      injection he with h1
      have := hqlt q hq
      omega
    · intro B T' h'' happ q hq
      have := hqlt q hq
      exact (appendOp_spec hwf' happ).2.2 q (by omega) (by
        intro he
        injection he with h1
        omega)
  · intro T0 hT hd0
    obtain ⟨bs, h', hc, hlen, hca, hnext', hwf', hself, hne, hcS⟩ :=
      copyAssign_spec hH hT hS hd0
    have hlkpre : ∀ q, S._init = some q → h'.lookup q = h.lookup q := by
      intro q hq
      have := hqlt q hq
      refine hne q (by omega) ?_
      intro he
      exact hd0 q he hq
    refine ⟨_, h', hca, rfl, rfl, hlkpre, hcS, ?_, ?_⟩
    · by_cases hl : S._length = 0
      · have hbs0 : bs = [] := List.length_eq_zero.mp (by omega)
        simp [contentOf, hl, hc, hbs0]
      · rw [contentOf, if_neg hl]
        show h'.load h.next 0 S._length = contentOf h S
        rw [Heap.load_eq 0 S._length hself, hc]
        exact readBytes_self hlen
    · intro q hq he
      injection he with h1
      have := hqlt q hq
      omega

/-- Witness for C2 at a concrete one-buffer heap. -/
theorem c2_duplicate_witness :
    (∃ T h', copyCtor ⟨[(0, [some 'a'])], 1⟩ ⟨some 0, 1, 1⟩ = some (T, h') ∧
      T._length = (⟨some 0, 1, 1⟩ : MyString)._length ∧
      T._size = (⟨some 0, 1, 1⟩ : MyString)._size ∧
      (∀ q, (⟨some 0, 1, 1⟩ : MyString)._init = some q →
        h'.lookup q = Heap.lookup ⟨[(0, [some 'a'])], 1⟩ q) ∧
      contentOf h' ⟨some 0, 1, 1⟩ = contentOf ⟨[(0, [some 'a'])], 1⟩ ⟨some 0, 1, 1⟩ ∧
      contentOf h' T = contentOf ⟨[(0, [some 'a'])], 1⟩ ⟨some 0, 1, 1⟩ ∧
      (∀ q, (⟨some 0, 1, 1⟩ : MyString)._init = some q → T._init ≠ some q) ∧
      (∀ B T' h'', appendOp h' T B = some (T', h'') →
        ∀ q, (⟨some 0, 1, 1⟩ : MyString)._init = some q → h''.lookup q = h'.lookup q)) ∧
    (∀ T0, wfStr ⟨[(0, [some 'a'])], 1⟩ T0 →
      (∀ q, T0._init = some q → (⟨some 0, 1, 1⟩ : MyString)._init ≠ some q) →
      ∃ T h', copyAssign ⟨[(0, [some 'a'])], 1⟩ T0 ⟨some 0, 1, 1⟩ = some (T, h') ∧
        T._length = (⟨some 0, 1, 1⟩ : MyString)._length ∧
        T._size = (⟨some 0, 1, 1⟩ : MyString)._size ∧
        (∀ q, (⟨some 0, 1, 1⟩ : MyString)._init = some q →
          h'.lookup q = Heap.lookup ⟨[(0, [some 'a'])], 1⟩ q) ∧
        contentOf h' ⟨some 0, 1, 1⟩ = contentOf ⟨[(0, [some 'a'])], 1⟩ ⟨some 0, 1, 1⟩ ∧
        contentOf h' T = contentOf ⟨[(0, [some 'a'])], 1⟩ ⟨some 0, 1, 1⟩ ∧
        (∀ q, (⟨some 0, 1, 1⟩ : MyString)._init = some q → T._init ≠ some q)) := by
  refine c2_duplicate_independent ⟨[(0, [some 'a'])], 1⟩ ⟨some 0, 1, 1⟩ ?_ ?_
  · exact Heap.wfH_of_forall (by decide)
  · refine ⟨le_refl 1, ?_, ?_⟩
    · intro hx
      cases hx
    · intro p hp
      cases hp
      exact ⟨[some 'a'], rfl, by decide⟩

/-- C3 counterexample: the claim asserts `x = x` through the
duplicate-assign path is guarded and leaves the content unchanged; on
the concrete buffer built from "ab" the unguarded duplicate-assign
frees and reallocates, and the content changes from the two letters to
two indeterminate bytes. -/
theorem c3_self_copy_assign_counterexample :
    fromBytes Heap.empty ("ab".toList) =
      some (⟨some 0, 2, 2⟩, ⟨[(0, [some 'a', some 'b'])], 1⟩) ∧
    copyAssignSelf ⟨[(0, [some 'a', some 'b'])], 1⟩ ⟨some 0, 2, 2⟩ =
      some (⟨some 1, 2, 2⟩, ⟨[(1, [none, none])], 2⟩) ∧
    contentOf ⟨[(1, [none, none])], 2⟩ ⟨some 1, 2, 2⟩ ≠
      contentOf ⟨[(0, [some 'a', some 'b'])], 1⟩ ⟨some 0, 2, 2⟩ := by
  refine ⟨?_, ?_, ?_⟩ <;> decide

/-- C3 (amended): only the transfer-assign path is explicitly guarded —
`x = std::move(x)` is a no-op on object and heap.  The duplicate-assign
path `x = x` is unguarded: it frees the old buffer and reallocates, so
it neither double-frees nor leaves the fields changed, but the content
becomes indeterminate (it is copied from the fresh uninitialized
allocation through the alias). -/
theorem c3_self_assign_amended (h : Heap) (x : MyString) (hx : wfStr h x) :
    moveAssignSelf h x = (x, h) ∧
    (∃ x' h', copyAssignSelf h x = some (x', h') ∧
      x'._length = x._length ∧ x'._size = x._size ∧
      contentOf h' x' = some (List.replicate x._length none)) :=
  ⟨rfl, copyAssignSelf_spec hx⟩

/-- Witness for the amended C3 at a concrete one-buffer heap. -/
theorem c3_self_assign_amended_witness :
    moveAssignSelf ⟨[(0, [some 'a'])], 1⟩ ⟨some 0, 1, 1⟩ =
      (⟨some 0, 1, 1⟩, ⟨[(0, [some 'a'])], 1⟩) ∧
    (∃ x' h', copyAssignSelf ⟨[(0, [some 'a'])], 1⟩ ⟨some 0, 1, 1⟩ = some (x', h') ∧
      x'._length = (⟨some 0, 1, 1⟩ : MyString)._length ∧
      x'._size = (⟨some 0, 1, 1⟩ : MyString)._size ∧
      contentOf h' x' =
        some (List.replicate (⟨some 0, 1, 1⟩ : MyString)._length none)) := by
  refine c3_self_assign_amended ⟨[(0, [some 'a'])], 1⟩ ⟨some 0, 1, 1⟩ ?_
  refine ⟨le_refl 1, ?_, ?_⟩
  · intro hx
    cases hx
  · intro p hp
    cases hp
    exact ⟨[some 'a'], rfl, by decide⟩

/-- C4: constructing from a byte sequence of length `n` allocates a
buffer of exactly `n` bytes (no terminator byte), copies the `n` input
bytes into it, and sets `_length` and `_size` to `n`. -/
theorem c4_ctor_exact_allocation (h : Heap) (s : List Char) :
    ∃ h', fromBytes h s = some (⟨some h.next, s.length, s.length⟩, h') ∧
      h'.lookup h.next = some (s.map some) ∧
      (s.map some).length = s.length := by
  refine ⟨_, fromBytes_spec h s, ?_, by simp⟩
  simp [Heap.lookup, lookupB]

/-- C5 (code bug): with `a` built from "abc" (length 3, capacity 3) and
`b` built from "ab" (length 2), the growth guard `_size <= rhs._length`
is false (3 is not at most 2), so `+=` does not grow; the final
`memcpy` then writes 2 bytes at offsets 3 and 4 of the 3-byte
allocation, and the model traps the out-of-bounds write. -/
theorem c5_append_overflow_failing_input :
    fromBytes Heap.empty ("abc".toList) =
      some (⟨some 0, 3, 3⟩, ⟨[(0, [some 'a', some 'b', some 'c'])], 1⟩) ∧
    fromBytes ⟨[(0, [some 'a', some 'b', some 'c'])], 1⟩ ("ab".toList) =
      some (⟨some 1, 2, 2⟩,
        ⟨[(1, [some 'a', some 'b']), (0, [some 'a', some 'b', some 'c'])], 2⟩) ∧
    ¬ ((⟨some 0, 3, 3⟩ : MyString)._size ≤ (⟨some 1, 2, 2⟩ : MyString)._length) ∧
    appendOp ⟨[(1, [some 'a', some 'b']), (0, [some 'a', some 'b', some 'c'])], 2⟩
      ⟨some 0, 3, 3⟩ ⟨some 1, 2, 2⟩ = none := by
  refine ⟨?_, ?_, ?_, ?_⟩ <;> decide

/-- C6 (code bug): in the `custom_append` scenario the resulting 30-byte
buffer holds exactly the concatenation "first Element second addition ",
and the fields still read length 14 / capacity 14; but `print_str`
sizes its output with `strlen` and the buffer holds no NUL byte within
its 30-byte allocation, so the render reads out of bounds (modelled as
`Render.invalid`) and the pinned 30-character output is not guaranteed
by the code. -/
theorem c6_append_scenario_render :
    custom_append.bind (fun r => r.1._init.bind (fun p => r.2.lookup p)) =
      some (("first Element second addition ".toList).map some) ∧
    custom_append.map (fun r => (r.1._length, r.1._size)) = some (14, 14) ∧
    strlenWithin (("first Element second addition ".toList).map some) = none ∧
    custom_append.map (fun r => print_str r.2 r.1) = some Render.invalid := by
  refine ⟨?_, ?_, ?_, ?_⟩ <;> decide

/-- C7: transfer-constructing a `My_custom` from a default-constructed
source gives the target the source's pre-transfer wrapped value
("default"), and the construction goes through the member's move
assignment (its trace event appears) — not through any copy path. -/
theorem c7_compose_transfer_uses_member_move :
    customDefault.1._str._std_string = "default".toList ∧
    (customMoveCtor customDefault.1).1._str._std_string = "default".toList ∧
    (customMoveCtor customDefault.1).2.2 =
      [TraceEv.stdDefaultCtor, TraceEv.stdMoveAssign, TraceEv.customMoveCtor] ∧
    TraceEv.stdMoveAssign ∈ (customMoveCtor customDefault.1).2.2 ∧
    TraceEv.stdCopyAssign ∉ (customMoveCtor customDefault.1).2.2 ∧
    TraceEv.customCopyCtor ∉ (customMoveCtor customDefault.1).2.2 := by
  refine ⟨?_, ?_, ?_, ?_, ?_, ?_⟩ <;> decide

/-- C8: every operation preserves `_size ≥ _length` (capacity at least
length), and an object just transferred from is `(nullptr, 0, 0)`, so
its destructor's `delete[] _init` is a no-op (safe destruction). -/
theorem c8_invariant_capacity_ge_length (h : Heap) (s t : MyString)
    (hs : s._length ≤ s._size) (ht : t._length ≤ t._size) :
    mkEmpty._length ≤ mkEmpty._size ∧
    (∀ cs t' h', fromBytes h cs = some (t', h') → t'._length ≤ t'._size) ∧
    (∀ t' h', copyCtor h s = some (t', h') → t'._length ≤ t'._size) ∧
    ((moveCtor s).1._length ≤ (moveCtor s).1._size ∧
      (moveCtor s).2 = ⟨none, 0, 0⟩ ∧
      h.deleteArr (moveCtor s).2._init = some h) ∧
    (∀ t' h', copyAssign h t s = some (t', h') → t'._length ≤ t'._size) ∧
    (∀ T' S' h', moveAssign h t s = some (T', S', h') →
      T'._length ≤ T'._size ∧ S' = ⟨none, 0, 0⟩ ∧ h'.deleteArr S'._init = some h') ∧
    (∀ t' h', appendOp h s t = some (t', h') → t'._length ≤ t'._size) := by
  refine ⟨le_refl 0, ?_, ?_, ⟨hs, rfl, rfl⟩, ?_, ?_, ?_⟩
  · intro cs t' h' hf
    rw [fromBytes_spec] at hf
    cases hf
    exact le_refl _
  · intro t' h' hcc
    obtain ⟨h1, h2⟩ := copyCtor_fields hcc
    omega
  · intro t' h' hca
    obtain ⟨h1, h2⟩ := copyAssign_fields hca
    omega
  · intro T' S' h' hma
    obtain ⟨h1, h2⟩ := moveAssign_fields hma
    subst h1
    subst h2
    exact ⟨hs, rfl, rfl⟩
  · intro t' h' happ
    obtain ⟨h1, h2⟩ := appendOp_fields happ
    omega

/-- Witness for C8 at the empty heap and empty objects. -/
theorem c8_invariant_witness :
    mkEmpty._length ≤ mkEmpty._size ∧
    (∀ cs t' h', fromBytes Heap.empty cs = some (t', h') → t'._length ≤ t'._size) ∧
    (∀ t' h', copyCtor Heap.empty mkEmpty = some (t', h') → t'._length ≤ t'._size) ∧
    ((moveCtor mkEmpty).1._length ≤ (moveCtor mkEmpty).1._size ∧
      (moveCtor mkEmpty).2 = ⟨none, 0, 0⟩ ∧
      Heap.deleteArr Heap.empty (moveCtor mkEmpty).2._init = some Heap.empty) ∧
    (∀ t' h', copyAssign Heap.empty mkEmpty mkEmpty = some (t', h') →
      t'._length ≤ t'._size) ∧
    (∀ T' S' h', moveAssign Heap.empty mkEmpty mkEmpty = some (T', S', h') →
      T'._length ≤ T'._size ∧ S' = ⟨none, 0, 0⟩ ∧ h'.deleteArr S'._init = some h') ∧
    (∀ t' h', appendOp Heap.empty mkEmpty mkEmpty = some (t', h') →
      t'._length ≤ t'._size) :=
  c8_invariant_capacity_ge_length Heap.empty mkEmpty mkEmpty (by decide) (by decide)

/-- C9: `+=` leaves the left operand's `_length` and `_size` exactly as
they were before the append, even though (in the growth case) the right
operand's bytes are written into the buffer at the tail position right
after the old length — so the fields no longer describe the appended
content. -/
theorem c9_append_leaves_fields_unchanged (h : Heap) (a b : MyString)
    (hH : h.wfH) (ha : wfStr h a) (hb : wfStr h b)
    (hdist : ∀ q, a._init = some q → b._init ≠ some q) :
    (∀ a' h', appendOp h a b = some (a', h') →
      a'._length = a._length ∧ a'._size = a._size) ∧
    (a._size ≤ b._length →
      ∃ bs h', contentOf h b = some bs ∧
        appendOp h a b = some (⟨some h.next, a._length, a._size⟩, h') ∧
        h'.load h.next a._length b._length = some bs) :=
  ⟨fun _ _ happ => appendOp_fields happ,
    fun hgrow => appendOp_grow_spec hH ha hb hdist hgrow⟩

/-- Witness for C9 at a concrete two-buffer heap where growth occurs. -/
theorem c9_append_fields_witness :
    (∀ a' h', appendOp ⟨[(0, [some 'a']), (1, [some 'b', some 'c'])], 2⟩
        ⟨some 0, 1, 1⟩ ⟨some 1, 2, 2⟩ = some (a', h') →
      a'._length = (⟨some 0, 1, 1⟩ : MyString)._length ∧
      a'._size = (⟨some 0, 1, 1⟩ : MyString)._size) ∧
    ((⟨some 0, 1, 1⟩ : MyString)._size ≤ (⟨some 1, 2, 2⟩ : MyString)._length →
      ∃ bs h', contentOf ⟨[(0, [some 'a']), (1, [some 'b', some 'c'])], 2⟩
          ⟨some 1, 2, 2⟩ = some bs ∧
        appendOp ⟨[(0, [some 'a']), (1, [some 'b', some 'c'])], 2⟩
          ⟨some 0, 1, 1⟩ ⟨some 1, 2, 2⟩ =
          some (⟨some (Heap.mk [(0, [some 'a']), (1, [some 'b', some 'c'])] 2).next,
            (⟨some 0, 1, 1⟩ : MyString)._length, (⟨some 0, 1, 1⟩ : MyString)._size⟩, h') ∧
        h'.load (Heap.mk [(0, [some 'a']), (1, [some 'b', some 'c'])] 2).next
          (⟨some 0, 1, 1⟩ : MyString)._length (⟨some 1, 2, 2⟩ : MyString)._length =
          some bs) := by
  refine c9_append_leaves_fields_unchanged
    ⟨[(0, [some 'a']), (1, [some 'b', some 'c'])], 2⟩ ⟨some 0, 1, 1⟩ ⟨some 1, 2, 2⟩
    (Heap.wfH_of_forall (by decide)) ?_ ?_ ?_
  · refine ⟨le_refl 1, ?_, ?_⟩
    · intro hx
      cases hx
    · intro p hp
      cases hp
      exact ⟨[some 'a'], rfl, by decide⟩
  · refine ⟨le_refl 2, ?_, ?_⟩
    · intro hx
      cases hx
    · intro p hp
      cases hp
      exact ⟨[some 'b', some 'c'], by decide, by decide⟩
  · intro q hq he
    injection hq with h1
    injection he with h2
    omega

/-- C10: duplicating from a source in the empty-marker state reads zero
bytes from the null source pointer and succeeds, but gives the target a
non-null pointer to a zero-sized allocation, so the target's render no
longer takes the "No data available" branch. -/
theorem c10_duplicate_from_empty_marker (h : Heap) (T0 : MyString)
    (hH : h.wfH) (hT : wfStr h T0) :
    (∃ h', copyCtor h ⟨none, 0, 0⟩ = some (⟨some h.next, 0, 0⟩, h') ∧
      h'.lookup h.next = some [] ∧
      print_str h' ⟨some h.next, 0, 0⟩ ≠ Render.noData) ∧
    (∃ T h', copyAssign h T0 ⟨none, 0, 0⟩ = some (T, h') ∧
      T._init = some h.next ∧ T._length = 0 ∧
      h'.lookup h.next = some [] ∧ print_str h' T ≠ Render.noData) := by
  have hwfE : wfStr h (⟨none, 0, 0⟩ : MyString) :=
    ⟨le_refl 0, fun _ => ⟨rfl, rfl⟩, fun p hp => Option.noConfusion hp⟩
  constructor
  · obtain ⟨bs, h', hc, hlen, hcc, hnext', hwf', hself, hne⟩ := copyCtor_spec hH hwfE
    have hbs : bs = [] := List.length_eq_zero.mp hlen
    subst hbs
    refine ⟨h', hcc, hself, ?_⟩
    rw [print_str_some (⟨some h.next, 0, 0⟩ : MyString) rfl hself]
    decide
  · obtain ⟨bs, h', hc, hlen, hca, hnext', hwf', hself, hne, hcS⟩ :=
      copyAssign_spec hH hT hwfE (fun q hq he => Option.noConfusion he)
    have hbs : bs = [] := List.length_eq_zero.mp hlen
    subst hbs
    refine ⟨⟨some h.next, 0, 0⟩, h', hca, rfl, rfl, hself, ?_⟩
    rw [print_str_some (⟨some h.next, 0, 0⟩ : MyString) rfl hself]
    decide

/-- Witness for C10 at the empty heap and an empty-marker target. -/
theorem c10_duplicate_witness :
    (∃ h', copyCtor Heap.empty ⟨none, 0, 0⟩ =
        some (⟨some Heap.empty.next, 0, 0⟩, h') ∧
      h'.lookup Heap.empty.next = some [] ∧
      print_str h' ⟨some Heap.empty.next, 0, 0⟩ ≠ Render.noData) ∧
    (∃ T h', copyAssign Heap.empty mkEmpty ⟨none, 0, 0⟩ = some (T, h') ∧
      T._init = some Heap.empty.next ∧ T._length = 0 ∧
      h'.lookup Heap.empty.next = some [] ∧ print_str h' T ≠ Render.noData) :=
  c10_duplicate_from_empty_marker Heap.empty mkEmpty Heap.wfH_empty
    ⟨le_refl 0, fun _ => ⟨rfl, rfl⟩, fun p hp => Option.noConfusion hp⟩

end MoveSem
